import Mathlib

/-!
Verification of the `hold` package of `xurwxj/kvdb`, a typed document layer
over the Badger key-value engine.  The definitions below are a shallow
embedding of the Go source in `src/hold` (store.go, encode.go); each
definition's doc comment names the Go function it embeds.  Bytes are
modelled as lists of naturals, Go strings as Lean strings, Go maps as
association lists, and fallible Go functions as `Except`.  Definitions come
first, theorems after.
-/

namespace KvdbHold

/-- Go `[]byte`. -/
abbrev Bytes := List Nat

/-- Go `[]byte(s)` for a string `s` (byte view of the string). -/
def strBytes (s : String) : Bytes := s.data.map Char.toNat

/-! ## Struct tags and `newStorer` (src/hold/store.go lines 140-205)

A Go `reflect.StructTag` is modelled as the association list of its
`key:"value"` pairs.  `tagRaw` renders the raw tag string that
`string(storer.rType.Field(i).Tag)` returns; `tagGet` is
`reflect.StructTag.Get`. -/

/-- One field of a Go struct: its name and its struct tag (as the list of
`key:"value"` pairs making up the tag). -/
structure StructField where
  name : String
  tag : List (String × String)
deriving DecidableEq, Repr

/-- `reflect.StructTag.Get key`: the value of the first pair with the given
key, `""` when the key is absent. -/
def tagGet (tag : List (String × String)) (key : String) : String :=
  match tag.find? (fun p => p.1 == key) with
  | some p => p.2
  | none => ""

/-- The raw tag string, as Go renders struct tags: space-separated
`key:"value"` items.  `string(Tag)` in the source. -/
def tagRaw (tag : List (String × String)) : String :=
  String.intercalate " " (tag.map (fun p => p.1 ++ ":\x22" ++ p.2 ++ "\x22"))

/-- Whether `pre` is a prefix of `l` (on characters). -/
def charsPrefix : List Char → List Char → Bool
  | [], _ => true
  | _ :: _, [] => false
  | a :: as, b :: bs => a == b && charsPrefix as bs

/-- Whether `needle` occurs as a contiguous substring of `hay`. -/
def charsContains (needle : List Char) : List Char → Bool
  | [] => charsPrefix needle []
  | c :: rest => charsPrefix needle (c :: rest) || charsContains needle rest

/-- Go `strings.Contains s sub`. -/
def strContains (s sub : String) : Bool := charsContains sub.data s.data

/-- The index decision `newStorer` makes for one struct field
(store.go lines 169-202): returns `some (indexName, unique)` exactly when an
index is registered for the field.  The `let` chain mirrors the Go
assignments to the mutable `indexName` / `unique` locals, including the
quirk at lines 177-179 where a non-empty `holdIndex` tag value is
overwritten by the field name. -/
def fieldIndexSpec (f : StructField) : Option (String × Bool) :=
  let indexName := ""
  let unique := false
  let (indexName, unique) :=
    if strContains (tagRaw f.tag) "holdIndex" then
      let indexName := tagGet f.tag "holdIndex"
      let indexName := if indexName ≠ "" then f.name else indexName
      (indexName, unique)
    else
      let tag := tagGet f.tag "hold"
      if tag ≠ "" then
        if tag = "index" then (f.name, unique)
        else if tag = "unique" then (f.name, true)
        else (indexName, unique)
      else (indexName, unique)
  if indexName ≠ "" then some (indexName, unique) else none

/-- Go `reflect.Kind`, restricted to what `newStorer` distinguishes:
`strct` stands for `reflect.Struct`, `other` for every non-struct,
non-pointer kind. -/
inductive GoKind where
  | strct
  | other
deriving DecidableEq, Repr

/-- A Go type as `reflect.TypeOf` sees it: either a pointer wrapper or a
definite type with a name (empty for unnamed types), a kind, and struct
fields (empty unless the kind is `strct`). -/
inductive GoType where
  | ptr (elem : GoType)
  | base (name : String) (kind : GoKind) (fields : List StructField)
deriving DecidableEq, Repr

/-- The pointer-dereference loop of `newStorer`
(`for tp.Kind() == reflect.Ptr { tp = tp.Elem() }`): yields the underlying
type's name, kind and fields. -/
def derefPtr : GoType → String × GoKind × List StructField
  | .ptr t => derefPtr t
  | .base n k fs => (n, k, fs)

/-- Go map assignment `m[k] = v` on an association-list model: replaces an
existing binding for `k`, otherwise appends. -/
def mapInsert : List (String × Bool) → String → Bool → List (String × Bool)
  | [], k, v => [(k, v)]
  | (k0, v0) :: rest, k, v =>
    if k0 = k then (k, v) :: rest else (k0, v0) :: mapInsert rest k v

/-- The index map `newStorer` builds over all fields of the struct
(the `for i := 0; i < NumField(); i++` loop): each field's
`fieldIndexSpec` entry is assigned into the map. -/
def buildIndexes (fields : List StructField) : List (String × Bool) :=
  fields.foldl
    (fun m f =>
      match fieldIndexSpec f with
      | some (n, u) => mapInsert m n u
      | none => m) []

/-- The descriptor `newStorer` returns for a reflected type: the type name
(`anonStorer.Type()`) and the registered indexes with their `Unique` flags
(`anonStorer.Indexes()`, keeping only the data of each `Index`). -/
structure AnonStorer where
  typeName : String
  indexes : List (String × Bool)
deriving DecidableEq, Repr

/-- `newStorer` (store.go lines 143-205) on a value that does not implement
the `Storer` interface: dereference pointer wrappers, panic (modelled as
`Except.error` carrying the panic message) when the underlying type is
unnamed or not a struct, else build the descriptor from the fields' tags. -/
def newStorer (t : GoType) : Except String AnonStorer :=
  let (n, k, fs) := derefPtr t
  if n = "" then Except.error "Invalid Type for Storer.  Type is unnamed"
  else if k ≠ GoKind.strct then
    Except.error "Invalid Type for Storer.  Hold only works with structs"
  else Except.ok { typeName := n, indexes := buildIndexes fs }

/-! ## Key encoding (src/hold/store.go `typePrefix`, src/hold/encode.go
`encodeKey` / `decodeKey`)

The store's bound codec pair is abstracted as a `CodecM`: `encodeK` /
`decodeK` are the bound `EncodeFunc` / `DecodeFunc` applied to the key
domain, `decodeV` the `DecodeFunc` applied to the record domain, and
`zeroV` the zero value `reflect.New` produces for the record type. -/

/-- The codec pair bound at `Open`, viewed at a key domain `K` and a record
domain `V`. -/
structure CodecM (K V : Type) where
  encodeK : K → Except String Bytes
  decodeK : Bytes → Except String K
  decodeV : Bytes → Except String V
  zeroV : V

/-- `typePrefix` (store.go lines 221-223): `[]byte("bh_" + typeName)`. -/
def typePrefix (typeName : String) : Bytes := strBytes ("bh_" ++ typeName)

/-- `encodeKey` (encode.go lines 43-50): encode the key with the bound
codec and prepend the type prefix. -/
def encodeKeyM (c : CodecM K V) (key : K) (typeName : String) :
    Except String Bytes :=
  match c.encodeK key with
  | Except.error e => Except.error e
  | Except.ok encoded => Except.ok (typePrefix typeName ++ encoded)

/-- `decodeKey` (encode.go lines 52-55): drop the type prefix
(`data[len(typePrefix(typeName)):]`) and decode the remainder with the
bound codec. -/
def decodeKeyM (c : CodecM K V) (data : Bytes) (typeName : String) :
    Except String K :=
  c.decodeK (data.drop (typePrefix typeName).length)

/-- Decoding for the concrete test codec: a one-element byte list decodes
to that byte, anything else is a decode error. -/
def natDecodeBytes : Bytes → Except String Nat
  | [n] => Except.ok n
  | _ => Except.error "natDecodeBytes: bad input"

/-- A concrete self-inverse codec on `Nat` keys and `Nat` records, used by
the witnesses: a value `n` encodes to the one-byte sequence `[n]`. -/
def natCodec : CodecM Nat Nat where
  encodeK := fun n => Except.ok [n]
  decodeK := natDecodeBytes
  decodeV := natDecodeBytes
  zeroV := 0

/-! ## The delete path (src/hold/store.go `Delete` / `TxDelete`,
lines 232-275)

A Badger transaction is modelled as the association list of the keys it
sees (`KV`); `kvGet` is `tx.Get` (`none` standing for
`badger.ErrKeyNotFound`), `kvDelete` is `tx.Delete`.  The record-level
errors `ErrNotFound` and encode/decode failures become `HoldErr`. -/

/-- Errors surfaced by the delete path: `hold.ErrNotFound`, or a codec
failure message. -/
inductive HoldErr where
  | notFound
  | codec (msg : String)
deriving DecidableEq, Repr

/-- A Badger transaction's key space: key to value, association list. -/
abbrev KV := List (Bytes × Bytes)

/-- `tx.Get`: the value stored at `k`, `none` for `ErrKeyNotFound`. -/
def kvGet : KV → Bytes → Option Bytes
  | [], _ => none
  | (k0, v) :: rest, k => if k0 = k then some v else kvGet rest k

/-- `tx.Delete`: removes the entry at `k`. -/
def kvDelete : KV → Bytes → KV
  | [], _ => []
  | (k0, v) :: rest, k =>
    if k0 = k then kvDelete rest k else (k0, v) :: kvDelete rest k

/-- One registered index as `TxDelete` consumes it: name, extractor
(`Index.IndexFunc` applied to a record value), unique flag. -/
structure NamedIndex (V : Type) where
  name : String
  fn : V → Except String Bytes
  unique : Bool

/-- The `Storer` descriptor as the delete path consumes it: `Type()` and
`Indexes()`. -/
structure StorerM (V : Type) where
  typeName : String
  indexes : List (NamedIndex V)

/-- Modelled from the spec: the non-unique secondary index entry key,
`"_index:" || T || ":" || idx_name || ":" || encode(field_value) ||
encode(record_key)` (spec section 3, keyspace layout).  The index
maintenance code (`index.go`) is not under `src/`. -/
def indexEntryKey (T idx : String) (fv gk : Bytes) : Bytes :=
  strBytes ("_index:" ++ T ++ ":" ++ idx ++ ":") ++ fv ++ gk

/-- Modelled from the spec: the unique index entry key,
`"_unique:" || T || ":" || idx_name || ":" || encode(field_value)`
(spec section 3, keyspace layout). -/
def uniqueEntryKey (T idx : String) (fv : Bytes) : Bytes :=
  strBytes ("_unique:" ++ T ++ ":" ++ idx ++ ":") ++ fv

/-- Modelled from the spec: the loop of `indexDelete` over the storer's
indexes.  Spec section 4.3: "`on_delete(tx, T, k, r)`: remove every index
entry and unique-key entry associated with r"; an extractor failure is a
codec error that aborts the loop. -/
def indexDeleteGo (T : String) (gk : Bytes) (v : V) :
    List (NamedIndex V) → KV → Except HoldErr Unit × KV
  | [], tx => (Except.ok (), tx)
  | ix :: rest, tx =>
    match ix.fn v with
    | Except.error e => (Except.error (HoldErr.codec e), tx)
    | Except.ok fv =>
      let ek := if ix.unique then uniqueEntryKey T ix.name fv
                else indexEntryKey T ix.name fv gk
      indexDeleteGo T gk v rest (kvDelete tx ek)

/-- Modelled from the spec: `indexDelete` (called by `TxDelete` at
store.go line 274; its definition, in the repo's `index.go`, is not under
`src/`): removes the index entry of every registered index for the record
at `gk` with value `v`, within the same transaction. -/
def indexDelete (st : StorerM V) (tx : KV) (gk : Bytes) (v : V) :
    Except HoldErr Unit × KV :=
  indexDeleteGo st.typeName gk v st.indexes tx

/-- The record value `TxDelete` hands to `indexDelete`: the stored bytes
decoded with the bound codec when decoding succeeds, else the zero value
`reflect.New` produced — the closure result of `item.Value` at store.go
lines 259-261 is discarded, so a decode failure leaves the freshly
allocated zero value in place. -/
def decodeOrZero (c : CodecM K V) (b : Bytes) : V :=
  match c.decodeV b with
  | Except.ok v => v
  | Except.error _ => c.zeroV

/-- `TxDelete` (store.go lines 241-275): encode the record key; `Get` it
(`ErrKeyNotFound` becomes `ErrNotFound`); decode the stored bytes (the
decode error is discarded, line 259); `Delete` the record entry; remove
the indexes.  The transaction state is threaded explicitly and returned
alongside the result. -/
def txDelete (c : CodecM K V) (st : StorerM V) (tx : KV) (key : K) :
    Except HoldErr Unit × KV :=
  match encodeKeyM c key st.typeName with
  | Except.error e => (Except.error (HoldErr.codec e), tx)
  | Except.ok gk =>
    match kvGet tx gk with
    | none => (Except.error HoldErr.notFound, tx)
    | some bVal => indexDelete st (kvDelete tx gk) gk (decodeOrZero c bVal)

/-- `Delete` (store.go lines 234-238): run `TxDelete` in an autonomous
`Badger().Update` transaction — on error the transaction is discarded and
the store keeps its previous state; on success the new state commits. -/
def deleteOp (c : CodecM K V) (st : StorerM V) (db : KV) (key : K) :
    Except HoldErr Unit × KV :=
  match txDelete c st db key with
  | (Except.ok u, tx2) => (Except.ok u, tx2)
  | (Except.error e, _) => (Except.error e, db)

/-- A concrete storer for the witnesses: type `Item` with one non-unique
index `Category` whose extractor encodes the record value itself. -/
def natStorer : StorerM Nat where
  typeName := "Item"
  indexes := [{ name := "Category", fn := fun v => Except.ok [v],
                unique := false }]

/-! ## Sequences and close (src/hold/store.go `getSequence` lines 207-219,
`Close` lines 95-108)

Badger sequence handles are modelled by the order of their creation
(`nextId`); the engine interactions are recorded as `EngineOp` traces. -/

/-- One call into the Badger engine made by the sequence machinery. -/
inductive EngineOp where
  | getSeq (name : String) (bandwidth : Nat)
  | releaseSeq (handle : Nat)
  | closeDb
deriving DecidableEq, Repr

/-- The store's sequence state: the `sequences` sync.Map (type name to
handle), the next fresh handle id, and the engine-call trace so far. -/
structure SeqState where
  sequences : List (String × Nat)
  nextId : Nat
  trace : List EngineOp
deriving DecidableEq, Repr

/-- `s.sequences.Load(typeName)`. -/
def lookupSeq : List (String × Nat) → String → Option Nat
  | [], _ => none
  | (n, h) :: rest, tn => if n = tn then some h else lookupSeq rest tn

/-- `getSequence` (store.go lines 207-219), up to the handle used: load the
per-type handle from the map; when absent, call the engine's `GetSequence`
(which may fail, modelled by the `engineErr` oracle), store the new handle
in the map and use it.  Returns the new state and the handle the request
ends up using (on which `Next()` is then called). -/
def getSequence (engineErr : String → Option String) (s : SeqState)
    (bandwidth : Nat) (typeName : String) : SeqState × Except String Nat :=
  match lookupSeq s.sequences typeName with
  | some h => (s, Except.ok h)
  | none =>
    match engineErr typeName with
    | some e => (s, Except.error e)
    | none =>
      ({ sequences := s.sequences ++ [(typeName, s.nextId)],
         nextId := s.nextId + 1,
         trace := s.trace ++ [EngineOp.getSeq typeName bandwidth] },
       Except.ok s.nextId)

/-- The `s.sequences.Range` loop of `Close` (store.go lines 97-103):
release each handle in turn, stopping at the first release error. -/
def closeReleaseRun (releaseErr : Nat → Option String) :
    List (String × Nat) → List EngineOp × Option String
  | [] => ([], none)
  | (_, h) :: rest =>
    match releaseErr h with
    | some e => ([EngineOp.releaseSeq h], some e)
    | none =>
      let (ops, r) := closeReleaseRun releaseErr rest
      (EngineOp.releaseSeq h :: ops, r)

/-- `Close` (store.go lines 95-108): release every sequence handle in the
map; if a release fails return that error without closing the engine,
otherwise close the Badger engine. -/
def closeStore (releaseErr : Nat → Option String) (s : SeqState) :
    List EngineOp × Option String :=
  match closeReleaseRun releaseErr s.sequences with
  | (ops, some e) => (ops, some e)
  | (ops, none) => (ops ++ [EngineOp.closeDb], none)

/-! ## Background value-log GC (src/hold/store.go `runStorageGC` /
`storageGC`, lines 71-87)

`db.RunValueLogGC` outcomes are supplied as an oracle list, one entry per
potential invocation (`none` = nil error, progress was made). -/

/-- Nanoseconds in `time.Second`. -/
def nsPerSecond : Nat := 1000000000

/-- The ticker interval of `runStorageGC` (store.go line 72):
`10 * time.Minute`, in nanoseconds, with `time.Minute = 60 * time.Second`. -/
def gcTickerIntervalNs : Nat := 10 * (60 * nsPerSecond)

/-- The reclaim-ratio threshold passed to `db.RunValueLogGC` (store.go
line 83): the literal `0.5`. -/
def gcDiscardRatio : ℚ := 1 / 2

/-- One `storageGC` cycle (store.go lines 81-87): call
`db.RunValueLogGC(0.5)` and loop back (`goto again`) while the call
returns a nil error; stop at the first non-nil error.  Returns the
discard ratios of the invocations made, in order. -/
def storageGCTrace : List (Option String) → List ℚ
  | [] => []
  | none :: rest => gcDiscardRatio :: storageGCTrace rest
  | some _ :: _ => [gcDiscardRatio]

/-- `runStorageGC` (store.go lines 71-79): a single ticker; each tick runs
one `storageGC` cycle, then the loop waits for the next tick. -/
def runStorageGC (ticks : List (List (Option String))) : List (List ℚ) :=
  ticks.map storageGCTrace

/-! ## The package-global codec (src/hold/store.go `Open` lines 52-69)

`Open` assigns `options.Encoder` / `options.Decoder` to the package-level
`encode` / `decode` variables; every index extractor closure built by
`newStorer` (lines 191-198) reads the global `encode` at call time.  The
globals are modelled as explicit state, the dynamic Go values a closure
receives as `GoValue`. -/

/-- A dynamic Go value as the `IndexFunc` closure sees it: pointer
wrappers, structs with named fields, or scalar leaves. -/
inductive GoValue where
  | ptr (v : GoValue)
  | strc (fields : List (String × GoValue))
  | str (s : String)
  | intv (n : Int)

/-- The pointer-dereference loop of the `IndexFunc` closure
(`for tp.Kind() == reflect.Ptr { tp = tp.Elem() }`, store.go
lines 193-195). -/
def derefVal : GoValue → GoValue
  | .ptr v => derefVal v
  | .strc fields => .strc fields
  | .str s => .str s
  | .intv n => .intv n

/-- Field lookup inside a struct value. -/
def lookupFieldVal : List (String × GoValue) → String → Option GoValue
  | [], _ => none
  | (n, v) :: rest, name =>
    if n = name then some v else lookupFieldVal rest name

/-- `reflect.Value.FieldByName` (store.go line 197): `none` when the value
is not a struct or lacks the field (Go would yield the zero `Value`). -/
def fieldByName (v : GoValue) (name : String) : Option GoValue :=
  match v with
  | .strc fields => lookupFieldVal fields name
  | _ => none

/-- The package-level `encode` / `decode` variables that `Open`
assigns. -/
structure GlobalCodec where
  encodeG : GoValue → Except String Bytes
  decodeG : Bytes → Except String GoValue

/-- The codec part of the `Options` passed to `Open`. -/
structure OptionsM where
  encoder : GoValue → Except String Bytes
  decoder : Bytes → Except String GoValue

/-- The assignments `encode = options.Encoder; decode = options.Decoder`
at the top of `Open` (store.go lines 54-55): the package globals are
overwritten, whatever store they previously served. -/
def openGlobals (o : OptionsM) (g : GlobalCodec) : GlobalCodec :=
  { g with encodeG := o.encoder, decodeG := o.decoder }

/-- The `IndexFunc` closure `newStorer` installs for an indexed field
(store.go lines 191-198): dereference pointer wrappers, `FieldByName`,
then the package-global `encode` — read from the current globals at call
time, not captured at `newStorer` time. -/
def anonIndexFunc (g : GlobalCodec) (name : String) (value : GoValue) :
    Except String Bytes :=
  match fieldByName (derefVal value) name with
  | some fv => g.encodeG fv
  | none => Except.error "invalid field"

end KvdbHold

namespace KvdbHold

/-- C1: evaluation of `fieldIndexSpec` and `newStorer` at a field carrying
`holdIndex:"IdxDivision"`: the registered index is named `Division` (the
field name), not `IdxDivision` (the tag value); and at a field carrying
`holdIndex:""` no index is registered at all.  This contradicts the claim
(and the repo README, which offers `holdIndex:"IdxDivision"` as the way to
"specify the index name"): lines 177-179 of store.go overwrite a non-empty
tag value with the field name. -/
theorem holdIndex_tag_value_ignored :
    fieldIndexSpec { name := "Division", tag := [("holdIndex", "IdxDivision")] }
      = some ("Division", false)
    ∧ fieldIndexSpec { name := "Division", tag := [("holdIndex", "")] } = none
    ∧ newStorer (GoType.base "Person" GoKind.strct
        [{ name := "Name", tag := [] },
         { name := "Division", tag := [("holdIndex", "IdxDivision")] }])
      = Except.ok { typeName := "Person", indexes := [("Division", false)] } := by
  refine ⟨by decide, by decide, by rfl⟩

/-- C4: a struct field tagged `hold:"index"` gets a non-unique index named
after the field; one tagged `hold:"unique"` gets an index named after the
field with the unique flag set; a field with neither (and no `holdIndex`
tag) gets no index.  The hypotheses fix the reading of "tagged": the
field's name is non-empty (guaranteed by Go) and its raw tag does not
mention `holdIndex`, whose branch takes precedence in store.go at
line 174. -/
theorem hold_tag_indexes (f : StructField) (hname : f.name ≠ "")
    (hno : strContains (tagRaw f.tag) "holdIndex" = false) :
    (tagGet f.tag "hold" = "index" → fieldIndexSpec f = some (f.name, false))
    ∧ (tagGet f.tag "hold" = "unique" → fieldIndexSpec f = some (f.name, true))
    ∧ (tagGet f.tag "hold" ≠ "index" → tagGet f.tag "hold" ≠ "unique" →
        fieldIndexSpec f = none) := by
  refine ⟨fun h => ?_, fun h => ?_, fun h1 h2 => ?_⟩ <;>
    simp only [fieldIndexSpec, hno, Bool.false_eq_true, if_false]
  · simp [h, hname]
  · simp [h, hname]
  · by_cases h0 : tagGet f.tag "hold" = ""
    · simp [h0]
    · simp [h0, h1, h2]

/-- C4 witness: `hold_tag_indexes` instantiated at three concrete fields,
one per conjunct. -/
theorem hold_tag_indexes_witness :
    fieldIndexSpec { name := "Division", tag := [("hold", "index")] }
      = some ("Division", false)
    ∧ fieldIndexSpec { name := "Email", tag := [("hold", "unique")] }
      = some ("Email", true)
    ∧ fieldIndexSpec { name := "Plain", tag := [("json", "plain")] } = none :=
  ⟨(hold_tag_indexes { name := "Division", tag := [("hold", "index")] }
      (by decide) (by decide)).1 (by decide),
   (hold_tag_indexes { name := "Email", tag := [("hold", "unique")] }
      (by decide) (by decide)).2.1 (by decide),
   (hold_tag_indexes { name := "Plain", tag := [("json", "plain")] }
      (by decide) (by decide)).2.2 (by decide) (by decide)⟩

/-- C6: `newStorer` on a value without a `Storer` implementation
dereferences pointer wrappers; it returns a descriptor (whose type name is
the underlying type's name) exactly when the underlying type is named and
is a struct, and panics (modelled as `Except.error`) exactly when the
underlying type is unnamed or not a struct. -/
theorem newStorer_named_struct (t : GoType) :
    ((∃ st, newStorer t = Except.ok st ∧ st.typeName = (derefPtr t).1)
      ↔ ((derefPtr t).1 ≠ "" ∧ (derefPtr t).2.1 = GoKind.strct))
    ∧ ((∃ msg, newStorer t = Except.error msg)
      ↔ ((derefPtr t).1 = "" ∨ (derefPtr t).2.1 ≠ GoKind.strct)) := by
  rcases hd : derefPtr t with ⟨n, k, fs⟩
  by_cases hn : n = "" <;> by_cases hk : k = GoKind.strct <;>
    simp [newStorer, hd, hn, hk]

/-- `strBytes` splits over string concatenation. -/
theorem strBytes_append (a b : String) :
    strBytes (a ++ b) = strBytes a ++ strBytes b := by
  simp [strBytes]

/-- C2: the record key the store produces for type name `T` and key `k` is
exactly the bytes of `"bh_"`, then the bytes of `T`, then the encoded key
— type prefix first, then the encoded key. -/
theorem record_key_layout (c : CodecM K V) (T : String) (k : K) (e : Bytes)
    (henc : c.encodeK k = Except.ok e) :
    encodeKeyM c k T = Except.ok (strBytes "bh_" ++ strBytes T ++ e) := by
  simp [encodeKeyM, henc, typePrefix, strBytes_append]

/-- C2 witness: `record_key_layout` at the concrete codec on `Nat` keys
(a key `n` encodes to the one-byte sequence `[n]`), type name `"T"`,
key `7`. -/
theorem record_key_layout_witness :
    encodeKeyM natCodec 7 "T"
      = Except.ok (strBytes "bh_" ++ strBytes "T" ++ [7]) :=
  record_key_layout natCodec "T" 7 [7] rfl

/-- C5: if the bound codec pair is self-inverse on keys, then `decodeKey`
recovers any key from the bytes `encodeKey` produced: the `"bh_" ++ T`
prefix that `encodeKey` prepended is stripped exactly, and the remainder
decodes back to the key. -/
theorem decodeKey_encodeKey (c : CodecM K V) (T : String) (k : K)
    (hinv : ∀ (v : K) (e : Bytes), c.encodeK v = Except.ok e →
      c.decodeK e = Except.ok v)
    (e : Bytes) (henc : c.encodeK k = Except.ok e) :
    ∃ d, encodeKeyM c k T = Except.ok d ∧ decodeKeyM c d T = Except.ok k := by
  refine ⟨typePrefix T ++ e, by simp [encodeKeyM, henc], ?_⟩
  have hdrop : (typePrefix T ++ e).drop (typePrefix T).length = e :=
    List.drop_left _ _
  rw [decodeKeyM, hdrop]
  exact hinv k e henc

/-- C5 witness: `decodeKey_encodeKey` at the concrete codec on `Nat` keys,
type name `"Item"`, key `3`. -/
theorem decodeKey_encodeKey_witness :
    ∃ d, encodeKeyM natCodec 3 "Item" = Except.ok d
      ∧ decodeKeyM natCodec d "Item" = Except.ok 3 :=
  decodeKey_encodeKey natCodec "Item" 3
    (fun v e h => by
      simp only [natCodec] at h
      cases h
      rfl)
    [3] rfl

/-- After `kvDelete tx k`, the key `k` is absent. -/
theorem kvGet_kvDelete_self (tx : KV) (k : Bytes) :
    kvGet (kvDelete tx k) k = none := by
  induction tx with
  | nil => rfl
  | cons p rest ih =>
    rcases p with ⟨k0, v⟩
    by_cases h : k0 = k <;> simp [kvDelete, kvGet, h, ih]

/-- `indexDeleteGo` only deletes keys, so a key absent before it stays
absent after it. -/
theorem indexDeleteGo_preserves_none (T : String) (gk : Bytes) (v : V)
    (ixs : List (NamedIndex V)) (tx : KV) (k : Bytes)
    (h : kvGet tx k = none) :
    kvGet (indexDeleteGo T gk v ixs tx).2 k = none := by
  induction ixs generalizing tx with
  | nil => simpa [indexDeleteGo] using h
  | cons ix rest ih =>
    simp only [indexDeleteGo]
    cases hfn : ix.fn v with
    | error e => simpa using h
    | ok fv =>
      apply ih
      have : ∀ ek, kvGet (kvDelete tx ek) k = none := by
        intro ek
        induction tx with
        | nil => rfl
        | cons p rest2 ih2 =>
          rcases p with ⟨k0, v0⟩
          by_cases h0 : k0 = ek
          · simp only [kvGet, kvDelete, if_pos h0]
            exact ih2 (by
              by_cases h1 : k0 = k
              · simp [kvGet, h1] at h
              · simpa [kvGet, h1] using h)
          · have h1 : k0 ≠ k := by
              intro hkk
              subst hkk
              simp [kvGet] at h
            simp only [kvDelete, if_neg h0, kvGet, if_neg h1]
            exact ih2 (by simpa [kvGet, h1] using h)
      exact this _

/-- When every extractor succeeds on `v`, `indexDeleteGo` succeeds. -/
theorem indexDeleteGo_ok (T : String) (gk : Bytes) (v : V)
    (ixs : List (NamedIndex V)) (tx : KV)
    (hok : ∀ ix ∈ ixs, ∃ fv, ix.fn v = Except.ok fv) :
    (indexDeleteGo T gk v ixs tx).1 = Except.ok () := by
  induction ixs generalizing tx with
  | nil => rfl
  | cons ix rest ih =>
    obtain ⟨fv, hfv⟩ := hok ix (List.mem_cons_self ix rest)
    simp only [indexDeleteGo, hfv]
    exact ih _ (fun j hj => hok j (List.mem_cons_of_mem ix hj))

/-- C3: with `gk` the encoded record key, `Delete` and `TxDelete` return
`ErrNotFound` and leave the transaction (and, for `Delete`, the store)
unchanged when `gk` is absent; when `gk` holds bytes `bVal`, they read
the old record (`decodeOrZero c bVal`), delete the record entry and hand
the same transaction to the index removal, after which `gk` is absent. -/
theorem txDelete_spec (c : CodecM K V) (st : StorerM V) (tx : KV) (key : K)
    (gk : Bytes) (hgk : encodeKeyM c key st.typeName = Except.ok gk) :
    (kvGet tx gk = none →
      txDelete c st tx key = (Except.error HoldErr.notFound, tx)
      ∧ deleteOp c st tx key = (Except.error HoldErr.notFound, tx))
    ∧ (∀ bVal, kvGet tx gk = some bVal →
      txDelete c st tx key
        = indexDelete st (kvDelete tx gk) gk (decodeOrZero c bVal)
      ∧ kvGet (txDelete c st tx key).2 gk = none) := by
  constructor
  · intro hnone
    constructor
    · simp [txDelete, hgk, hnone]
    · simp [deleteOp, txDelete, hgk, hnone]
  · intro bVal hsome
    constructor
    · simp [txDelete, hgk, hsome]
    · simp only [txDelete, hgk, hsome, indexDelete]
      exact indexDeleteGo_preserves_none _ _ _ _ _ _
        (kvGet_kvDelete_self tx gk)

/-- C3 witness: `txDelete_spec` at the concrete codec and storer, on a
one-record transaction holding key `5`. -/
theorem txDelete_spec_witness :
    txDelete natCodec natStorer [(typePrefix "Item" ++ [5], [5])] 5
      = indexDelete natStorer
          (kvDelete [(typePrefix "Item" ++ [5], [5])] (typePrefix "Item" ++ [5]))
          (typePrefix "Item" ++ [5]) (decodeOrZero natCodec [5])
    ∧ kvGet (txDelete natCodec natStorer
        [(typePrefix "Item" ++ [5], [5])] 5).2 (typePrefix "Item" ++ [5])
      = none :=
  (txDelete_spec natCodec natStorer [(typePrefix "Item" ++ [5], [5])] 5
      (typePrefix "Item" ++ [5]) rfl).2 [5] (by decide)

/-- C9: when the stored bytes do not decode, `TxDelete` discards the
decode error (line 259's closure result is never assigned): the record
entry is still deleted, index removal proceeds against the zero value,
and — provided the extractors themselves succeed — the call returns
success rather than a codec error. -/
theorem txDelete_decode_error_discarded (c : CodecM K V) (st : StorerM V)
    (tx : KV) (key : K) (gk bVal : Bytes) (e : String)
    (hgk : encodeKeyM c key st.typeName = Except.ok gk)
    (hget : kvGet tx gk = some bVal)
    (hdec : c.decodeV bVal = Except.error e) :
    txDelete c st tx key = indexDelete st (kvDelete tx gk) gk c.zeroV
    ∧ kvGet (txDelete c st tx key).2 gk = none
    ∧ ((∀ ix ∈ st.indexes, ∃ fv, ix.fn c.zeroV = Except.ok fv) →
        (txDelete c st tx key).1 = Except.ok ()) := by
  have hz : decodeOrZero c bVal = c.zeroV := by simp [decodeOrZero, hdec]
  refine ⟨?_, ?_, ?_⟩
  · simp [txDelete, hgk, hget, hz]
  · simp only [txDelete, hgk, hget, indexDelete]
    exact indexDeleteGo_preserves_none _ _ _ _ _ _
      (kvGet_kvDelete_self tx gk)
  · intro hok
    simp only [txDelete, hgk, hget, hz, indexDelete]
    exact indexDeleteGo_ok _ _ _ _ _ hok

/-- C9 witness: `txDelete_decode_error_discarded` on a transaction whose
stored bytes `[9, 9]` fail to decode under the concrete codec. -/
theorem txDelete_decode_error_discarded_witness :
    txDelete natCodec natStorer [(typePrefix "Item" ++ [5], [9, 9])] 5
      = indexDelete natStorer
          (kvDelete [(typePrefix "Item" ++ [5], [9, 9])] (typePrefix "Item" ++ [5]))
          (typePrefix "Item" ++ [5]) natCodec.zeroV
    ∧ kvGet (txDelete natCodec natStorer
        [(typePrefix "Item" ++ [5], [9, 9])] 5).2 (typePrefix "Item" ++ [5])
      = none
    ∧ (txDelete natCodec natStorer [(typePrefix "Item" ++ [5], [9, 9])] 5).1
      = Except.ok () := by
  have h := txDelete_decode_error_discarded natCodec natStorer
    [(typePrefix "Item" ++ [5], [9, 9])] 5 (typePrefix "Item" ++ [5])
    [9, 9] "natDecodeBytes: bad input" rfl (by decide) rfl
  exact ⟨h.1, h.2.1, h.2.2 (fun ix hix => by
    rcases List.mem_singleton.mp hix with rfl
    exact ⟨[0], rfl⟩)⟩

/-- Appending a fresh binding to a map without one makes it found. -/
theorem lookupSeq_append_self (l : List (String × Nat)) (tn : String)
    (h : Nat) (habs : lookupSeq l tn = none) :
    lookupSeq (l ++ [(tn, h)]) tn = some h := by
  induction l with
  | nil => simp [lookupSeq]
  | cons p rest ih =>
    rcases p with ⟨n, h0⟩
    by_cases hn : n = tn
    · simp [lookupSeq, hn] at habs
    · simp only [lookupSeq, if_neg hn] at habs
      simpa [lookupSeq, hn] using ih habs

/-- When every release succeeds, the `Range` loop of `Close` releases each
handle in map order. -/
theorem closeReleaseRun_all_ok (releaseErr : Nat → Option String)
    (l : List (String × Nat)) (hok : ∀ p ∈ l, releaseErr p.2 = none) :
    closeReleaseRun releaseErr l
      = (l.map (fun p => EngineOp.releaseSeq p.2), none) := by
  induction l with
  | nil => rfl
  | cons p rest ih =>
    rcases p with ⟨n, h⟩
    have h1 : releaseErr h = none := hok (n, h) (List.mem_cons_self _ _)
    simp only [closeReleaseRun, h1]
    rw [ih (fun q hq => hok q (List.mem_cons_of_mem _ hq))]
    rfl

/-- C7: the first sequence request for a type name creates the per-type
handle through the engine and stores it in the store's sequence map; every
later request for that type name returns the stored handle with no engine
call and no state change; and `Close` (when every release succeeds)
releases every handle held in the map, in map order, before closing the
underlying engine. -/
theorem sequence_lifecycle (engineErr : String → Option String)
    (releaseErr : Nat → Option String) (s : SeqState) (bw : Nat)
    (tn : String) :
    (lookupSeq s.sequences tn = none → engineErr tn = none →
      (getSequence engineErr s bw tn).2 = Except.ok s.nextId
      ∧ lookupSeq (getSequence engineErr s bw tn).1.sequences tn
          = some s.nextId
      ∧ (getSequence engineErr s bw tn).1.trace
          = s.trace ++ [EngineOp.getSeq tn bw])
    ∧ (∀ h, lookupSeq s.sequences tn = some h →
        getSequence engineErr s bw tn = (s, Except.ok h))
    ∧ ((∀ p ∈ s.sequences, releaseErr p.2 = none) →
        (closeStore releaseErr s).1
          = s.sequences.map (fun p => EngineOp.releaseSeq p.2)
            ++ [EngineOp.closeDb]) := by
  refine ⟨fun habs herr => ?_, fun h hfound => ?_, fun hok => ?_⟩
  · refine ⟨by simp [getSequence, habs, herr], ?_,
      by simp [getSequence, habs, herr]⟩
    simp only [getSequence, habs, herr]
    exact lookupSeq_append_self _ _ _ habs
  · simp [getSequence, hfound]
  · simp [closeStore, closeReleaseRun_all_ok releaseErr s.sequences hok]

/-- C7 witness: `sequence_lifecycle` with an error-free engine, applied at
an empty map (creation), at a map already holding `Item` (reuse), and to
`Close` over a two-handle map. -/
theorem sequence_lifecycle_witness :
    ((getSequence (fun _ => none) ⟨[], 0, []⟩ 100 "Item").2 = Except.ok 0
      ∧ lookupSeq (getSequence (fun _ => none) ⟨[], 0, []⟩ 100
          "Item").1.sequences "Item" = some 0
      ∧ (getSequence (fun _ => none) ⟨[], 0, []⟩ 100 "Item").1.trace
          = [EngineOp.getSeq "Item" 100])
    ∧ getSequence (fun _ => none) ⟨[("Item", 0)], 1, []⟩ 100 "Item"
        = (⟨[("Item", 0)], 1, []⟩, Except.ok 0)
    ∧ (closeStore (fun _ => none) ⟨[("Item", 0), ("Other", 1)], 2, []⟩).1
        = [EngineOp.releaseSeq 0, EngineOp.releaseSeq 1,
           EngineOp.closeDb] := by
  refine ⟨?_, ?_, ?_⟩
  · exact (sequence_lifecycle (fun _ => none) (fun _ => none)
      ⟨[], 0, []⟩ 100 "Item").1 rfl rfl
  · exact (sequence_lifecycle (fun _ => none) (fun _ => none)
      ⟨[("Item", 0)], 1, []⟩ 100 "Item").2.1 0 (by decide)
  · exact (sequence_lifecycle (fun _ => none) (fun _ => none)
      ⟨[("Item", 0), ("Other", 1)], 2, []⟩ 100 "Item").2.2
      (fun p _ => rfl)

/-- A cycle over leading nil errors followed by a non-nil error makes one
GC call per nil plus one for the error, then stops. -/
theorem storageGCTrace_until_error (pre post : List (Option String))
    (e : String) (hpre : ∀ x ∈ pre, x = none) :
    storageGCTrace (pre ++ some e :: post)
      = List.replicate (pre.length + 1) gcDiscardRatio := by
  induction pre with
  | nil => rfl
  | cons x rest ih =>
    have hx : x = none := hpre x (List.mem_cons_self _ _)
    subst hx
    have h2 := ih (fun y hy => hpre y (List.mem_cons_of_mem _ hy))
    simp only [List.cons_append, storageGCTrace, List.append_eq,
      List.length_cons, List.replicate_succ] at h2 ⊢
    rw [h2]

/-- A cycle of nil errors only keeps calling GC, once per outcome. -/
theorem storageGCTrace_all_none (pre : List (Option String))
    (hpre : ∀ x ∈ pre, x = none) :
    storageGCTrace pre = List.replicate pre.length gcDiscardRatio := by
  induction pre with
  | nil => rfl
  | cons x rest ih =>
    have hx : x = none := hpre x (List.mem_cons_self _ _)
    subst hx
    have h2 := ih (fun y hy => hpre y (List.mem_cons_of_mem _ hy))
    simp only [storageGCTrace, List.length_cons, List.replicate_succ]
    rw [h2]

/-- C8: the background value-log GC ticks on a single 10-minute ticker
(`gcTickerIntervalNs` is 600 seconds in nanoseconds); within a cycle it
invokes the engine's `RunValueLogGC` with reclaim ratio `0.5` once per
leading nil-error outcome plus once for the first non-nil error, then
stops (the remaining outcomes are untouched until the next tick); a tick
whose cycle never sees an error keeps invoking it once per outcome; and
each tick runs exactly one such cycle. -/
theorem storage_gc_cycle (pre post : List (Option String)) (e : String)
    (ticks : List (List (Option String)))
    (hpre : ∀ x ∈ pre, x = none) :
    gcTickerIntervalNs = 600 * nsPerSecond
    ∧ gcDiscardRatio = 1 / 2
    ∧ storageGCTrace (pre ++ some e :: post)
        = List.replicate (pre.length + 1) gcDiscardRatio
    ∧ storageGCTrace pre = List.replicate pre.length gcDiscardRatio
    ∧ runStorageGC ((pre ++ some e :: post) :: ticks)
        = storageGCTrace (pre ++ some e :: post) :: runStorageGC ticks := by
  exact ⟨by norm_num [gcTickerIntervalNs, nsPerSecond], rfl,
    storageGCTrace_until_error pre post e hpre,
    storageGCTrace_all_none pre hpre, rfl⟩

/-- C8 witness: `storage_gc_cycle` on a cycle with two successful GC
passes before the engine reports no further progress. -/
theorem storage_gc_cycle_witness :
    storageGCTrace [none, none, some "ErrNoRewrite"]
      = List.replicate 3 gcDiscardRatio
    ∧ storageGCTrace [none, none] = List.replicate 2 gcDiscardRatio :=
  ⟨(storage_gc_cycle [none, none] [] "ErrNoRewrite" []
      (fun x hx => by fin_cases hx <;> rfl)).2.2.1,
   (storage_gc_cycle [none, none] [] "ErrNoRewrite" []
      (fun x hx => by fin_cases hx <;> rfl)).2.2.2.1⟩

/-- C10: `Open` overwrites the package-level `encode` / `decode` globals
with the options' codec pair; the index extractor closures read the
global `encode` at call time; hence after two `Open`s in sequence, index
extraction — including for storers built under the first store — uses the
codec bound by the most recent `Open`. -/
theorem open_rebinds_global_codec (o1 o2 : OptionsM) (g0 : GlobalCodec)
    (name : String) (v : GoValue) :
    (openGlobals o2 (openGlobals o1 g0)).encodeG = o2.encoder
    ∧ (openGlobals o2 (openGlobals o1 g0)).decodeG = o2.decoder
    ∧ anonIndexFunc (openGlobals o2 (openGlobals o1 g0)) name v
        = anonIndexFunc (openGlobals o2 g0) name v
    ∧ (∀ fv, fieldByName (derefVal v) name = some fv →
        anonIndexFunc (openGlobals o2 (openGlobals o1 g0)) name v
          = o2.encoder fv) :=
  ⟨rfl, rfl, rfl, fun fv hfv => by simp [anonIndexFunc, hfv, openGlobals]⟩

/-- C10 witness: `open_rebinds_global_codec` at two concrete codecs (one
encoding strings, one failing on everything) and a struct value with a
`Category` field: extraction after the second `Open` uses the second
codec. -/
theorem open_rebinds_global_codec_witness :
    anonIndexFunc
        (openGlobals { encoder := fun _ => Except.error "codec2",
                       decoder := fun _ => Except.error "codec2" }
          (openGlobals
            { encoder := fun v =>
                match v with
                | GoValue.str s => Except.ok (strBytes s)
                | _ => Except.error "codec1",
              decoder := fun _ => Except.error "codec1" }
            { encodeG := fun _ => Except.error "initial",
              decodeG := fun _ => Except.error "initial" }))
        "Category" (GoValue.strc [("Category", GoValue.str "vehicle")])
      = Except.error "codec2" :=
  (open_rebinds_global_codec
    { encoder := fun v =>
        match v with
        | GoValue.str s => Except.ok (strBytes s)
        | _ => Except.error "codec1",
      decoder := fun _ => Except.error "codec1" }
    { encoder := fun _ => Except.error "codec2",
      decoder := fun _ => Except.error "codec2" }
    { encodeG := fun _ => Except.error "initial",
      decodeG := fun _ => Except.error "initial" }
    "Category" (GoValue.strc [("Category", GoValue.str "vehicle")])).2.2.2
    (GoValue.str "vehicle") rfl

end KvdbHold
